import Mathlib

/-!
Verification development for the video playback synchronization layer
(renpy/display/video.py).  Filenames are embedded as lists of characters,
Python dicts as ordered association lists, and the audio/video backend as
explicit function-valued environment fields.  Machine floats from the source
are modelled as rationals.
-/

set_option autoImplicit false

namespace Video

/-! ## String primitives mirroring Python str operations -/

/-- Splits a list at the first occurrence of `sep`, returning the parts
before and after it, or `none` if `sep` does not occur. -/
def splitFirst (sep : Char) : List Char → Option (List Char × List Char)
  | [] => none
  | c :: rest =>
    if c = sep then some ([], rest)
    else
      match splitFirst sep rest with
      | some pr => some (c :: pr.1, pr.2)
      | none => none

/-- Splits a list at the last occurrence of `sep`. -/
def splitLast (sep : Char) (s : List Char) : Option (List Char × List Char) :=
  match splitFirst sep s.reverse with
  | some pr => some (pr.2.reverse, pr.1.reverse)
  | none => none

/-- Python `s.partition(sep)`: split at the first occurrence of `sep`;
when `sep` is absent the result is `(s, "", "")`. -/
def pyPartition (s : List Char) (sep : Char) : List Char × List Char × List Char :=
  match splitFirst sep s with
  | some pr => (pr.1, [sep], pr.2)
  | none => (s, [], [])

/-- Python `s.rpartition(sep)`: split at the last occurrence of `sep`;
when `sep` is absent the result is `("", "", s)`. -/
def pyRPartition (s : List Char) (sep : Char) : List Char × List Char × List Char :=
  match splitLast sep s with
  | some pr => (pr.1, [sep], pr.2)
  | none => ([], [], s)

/-- Python `s.split(sep)` for a one-character separator: every occurrence
splits, empty pieces are kept, and the empty string yields `[""]`. -/
def pySplit (sep : Char) : List Char → List (List Char)
  | [] => [[]]
  | c :: rest =>
    if c = sep then [] :: pySplit sep rest
    else
      match pySplit sep rest with
      | [] => [[c]]
      | g :: gs => (c :: g) :: gs

/-! ## Model of the Python builtin float()

Only plain decimal notation is modelled: an optional sign, a digit string
with an optional fractional part, and an optional decimal exponent.  The
whitespace-trimming, underscore, infinity and nan forms accepted by the
builtin are not modelled; every input relevant to the oversampling claims
is covered by the decimal forms. -/

/-- Numeric value of a string of decimal digits. -/
def digitsVal (l : List Char) : Nat :=
  l.foldl (fun acc c => 10 * acc + (c.toNat - '0'.toNat)) 0

/-- Consumes an optional leading sign, returning the sign and the rest. -/
def parseSign : List Char → Int × List Char
  | '+' :: rest => (1, rest)
  | '-' :: rest => (-1, rest)
  | s => (1, s)

/-- Powers of ten as naturals. -/
def pow10 : Nat → Nat
  | 0 => 1
  | n + 1 => 10 * pow10 n

/-- Parses an unsigned decimal mantissa: digits, optionally with one dot;
at least one digit must be present overall.  Returns the value as a
numerator and denominator pair. -/
def parseUnsignedDec (s : List Char) : Option (Nat × Nat) :=
  match splitFirst '.' s with
  | none =>
    if s ≠ [] ∧ s.all Char.isDigit then some (digitsVal s, 1) else none
  | some pr =>
    if (pr.1 ≠ [] ∨ pr.2 ≠ []) ∧ pr.1.all Char.isDigit ∧ pr.2.all Char.isDigit then
      some (digitsVal pr.1 * pow10 pr.2.length + digitsVal pr.2, pow10 pr.2.length)
    else none

/-- Parses a signed decimal integer (used for the exponent part). -/
def parseExpInt (s : List Char) : Option Int :=
  let pr := parseSign s
  if pr.2 ≠ [] ∧ pr.2.all Char.isDigit then some (pr.1 * (digitsVal pr.2 : Int)) else none

/-- Model of Python `float(s)` on decimal notation, as a rational built
with a single normalizing `mkRat`. -/
def pyFloat (s : List Char) : Option Rat :=
  let t := s.map (fun c => if c = 'E' then 'e' else c)
  let pr := parseSign t
  match splitFirst 'e' pr.2 with
  | none => (parseUnsignedDec pr.2).map (fun nd => mkRat (pr.1 * (nd.1 : Int)) nd.2)
  | some me =>
    match parseUnsignedDec me.1, parseExpInt me.2 with
    | some nd, some ev =>
      some (mkRat (pr.1 * (nd.1 : Int) * (pow10 ev.toNat : Int)) (nd.2 * pow10 (-ev).toNat))
    | _, _ => none

/-! ## Play sources and loadability -/

/-- A play source is either a single filename or a list of alternate
filenames (`play` may be a path or a list of paths). -/
inductive PlaySource where
  | str (s : List Char)
  | list (l : List (List Char))
deriving DecidableEq

/-- Python truthiness of a play source value: empty strings and empty lists
are falsy. -/
def PlaySource.truthy : PlaySource → Bool
  | .str s => s ≠ []
  | .list l => l ≠ []

/-- Truthiness of an optional play source (`None` is falsy). -/
def optTruthy : Option PlaySource → Bool
  | none => false
  | some p => p.truthy

/-- Model of `re.match(r"<.*>(.*)$", name)` followed by `m.group(1)`:
when the name starts with `<` and a `>` follows, the greedy `.*` makes
group 1 the text after the last `>`; otherwise the name is unchanged. -/
def stripAngle (s : List Char) : List Char :=
  match s with
  | '<' :: rest =>
    match splitLast '>' rest with
    | some pr => pr.2
    | none => s
  | _ => s

/-- Movie.any_loadable: a single filename is checked after stripping an
angle-bracket prefix; a list is loadable when any member is loadable.
The loader itself is an external collaborator, passed as a predicate. -/
def Movie.any_loadable (loadable : List Char → Bool) : PlaySource → Bool
  | .str s => loadable (stripAngle s)
  | .list l => l.any loadable

/-- Play-source handling of Movie.__init__: `_original_play` is always the
requested source, and `_play` is set (from its `None` class default) only
when the source is given and `any_loadable` accepts it.  Returns the pair
`(_play, _original_play)`. -/
def Movie.init_play (loadable : List Char → Bool) (play : Option PlaySource) :
    Option PlaySource × Option PlaySource :=
  match play with
  | none => (none, none)
  | some p => (if Movie.any_loadable loadable p then some p else none, some p)

/-! ## Oversampling resolver -/

/-- Environment for the oversampling resolver: the configured automatic
oversampling cap (`none` models a falsy config value, disabling the
search), the truthiness of the draw object, the backend scale factor
`draw_per_virt`, and the loader predicate. -/
structure OversampleEnv where
  automatic_oversampling : Option Nat
  draw : Bool
  draw_per_virt : Rat
  loadable : List Char → Bool

/-- Model of Python `range(a, 1, -1)`: the list `[a, a - 1, ..., 2]`. -/
def rangeDown : Nat → List Nat
  | 0 => []
  | 1 => []
  | n + 2 => (n + 2) :: rangeDown (n + 1)

/-- Decimal digits of a natural number (the f-string rendering of `i`). -/
def natDigits (n : Nat) : List Char :=
  (Nat.repr n).data

/-- Candidate filename built inside the find_oversampled_filename loop:
`base` and `ext` come from splitting the original filename at the last
dot, an existing `@extras` suffix of the base is preserved behind a comma,
and the multiplier is inserted as `base@i extras.ext`. -/
def oversample_candidate (filename : List Char) (i : Nat) : List Char :=
  let pe := pyRPartition filename '.'
  let base := pe.1
  let ext := pe.2.2
  let pb := pyPartition base '@'
  let base2 := pb.1
  let extras0 := pb.2.2
  let extras := if extras0 ≠ [] then ',' :: extras0 else extras0
  base2 ++ '@' :: natDigits i ++ extras ++ '.' :: ext

/-- find_oversampled_filename: when the filename has no `@`, automatic
oversampling is configured, the draw object exists and the backend scale
exceeds 1, candidates from the capped next power of two down to 2 are
tried and the first loadable one is returned; otherwise the filename is
unchanged.  The float expression `2 ** int(math.ceil(math.log2(x)))` is
the least power of two that is at least `x`, computed here exactly as
`2 ^ Nat.clog 2 ⌈x⌉` (the two agree for every `x > 1`). -/
def find_oversampled_filename (oenv : OversampleEnv) (filename : List Char) : List Char :=
  if (filename.contains '@') = false ∧ oenv.automatic_oversampling.isSome ∧
      oenv.draw = true ∧ 1 < oenv.draw_per_virt then
    let cap := oenv.automatic_oversampling.getD 1
    let max_oversample := min (2 ^ Nat.clog 2 ⌈oenv.draw_per_virt⌉.toNat) cap
    match (rangeDown max_oversample).find?
        (fun i => Movie.any_loadable oenv.loadable (.str (oversample_candidate filename i))) with
    | some i => oversample_candidate filename i
    | none => filename
  else
    filename

/-- Payload of the exception raised for a malformed movie modifier:
the offending comma-separated token and the filename it occurs in. -/
structure ModifierError where
  modifier : List Char
  filename : List Char
deriving DecidableEq

/-- The `for i in extras` loop of find_oversampled: each token is converted
with `float`, a failing conversion raises immediately, and each successful
conversion overwrites the accumulator, so the last token wins. -/
def parse_modifier_list (filename : List Char) (oversample : Rat) :
    List (List Char) → Except ModifierError Rat
  | [] => .ok oversample
  | i :: rest =>
    match pyFloat i with
    | some v => parse_modifier_list filename v rest
    | none => .error ⟨i, filename⟩

/-- find_oversampled: resolves the filename actually played and the
effective oversample factor.  An explicit `oversample` attribute wins
verbatim; a non-string source gets factor 1; otherwise the filename is
passed through find_oversampled_filename and, when it contains `@`, the
modifier tokens after the last `@` of the dot-free base (up to the first
slash) are parsed, after skipping a leading `<...>` prefix. -/
def find_oversampled (oenv : OversampleEnv) (oversample_attr : Option Rat)
    (src : PlaySource) : Except ModifierError (PlaySource × Rat) :=
  match oversample_attr with
  | some q => .ok (src, q)
  | none =>
    match src with
    | .list l => .ok (.list l, 1)
    | .str filename0 =>
      let fn1 := find_oversampled_filename oenv filename0
      if fn1.contains '@' then
        let fn2 := if fn1.head? = some '<' then (pyPartition fn1 '>').2.2 else fn1
        let base := (pyRPartition fn2 '.').1
        let extras := pySplit ',' ((pyPartition ((pyRPartition base '@').2.2) '/').1)
        match parse_modifier_list fn2 1 extras with
        | .ok ov => .ok (.str fn2, ov)
        | .error e => .error e
      else
        .ok (.str fn1, 1)

/-! ## Surfaces, textures and ordered association maps -/

/-- A decoded video surface: either a backend frame with a size, a
rectangular subsurface view `(x, y, w, h)` of a parent, or the result of
alpha_munge compositing a mask surface into a color surface. -/
inductive Surface where
  | base (id w h : Nat)
  | sub (parent : Surface) (x y w h : Nat)
  | munged (mask color : Surface)
deriving DecidableEq

/-- Size of a surface; a subsurface has the size of its rectangle and
alpha_munge mutates the color surface in place, keeping its size. -/
def Surface.get_size : Surface → Nat × Nat
  | .base _ w h => (w, h)
  | .sub _ _ _ w h => (w, h)
  | .munged _ color => color.get_size

/-- A loaded GPU texture; load_texture wraps the surface (the mipmap flag
only tunes backend sampling and has no observable effect modelled here). -/
structure Texture where
  surf : Surface
deriving DecidableEq

/-- Lookup in an ordered association map (a Python dict). -/
def keyGet {β : Type} (l : List (String × β)) (c : String) : Option β :=
  (l.find? (fun kv => kv.1 == c)).map (fun kv => kv.2)

/-- Key membership in an ordered association map. -/
def keyMem {β : Type} (l : List (String × β)) (c : String) : Bool :=
  l.any (fun kv => kv.1 == c)

/-- Dict assignment: replace the value in place when the key is present,
otherwise append the new entry at the end. -/
def keySet {β : Type} (l : List (String × β)) (c : String) (v : β) : List (String × β) :=
  if keyMem l c then l.map (fun kv => if kv.1 == c then (c, v) else kv) else l ++ [(c, v)]

/-! ## Video slots -/

/-- A Movie displayable (a video slot).  The `id` field carries object
identity so that two distinct slots with identical configuration still
compare as different occupants.  Fallback and start images are modelled by
the size their rendering produces. -/
structure MovieSlot where
  id : Nat
  channel : String
  mask_channel : Option String
  side_mask : Bool
  size : Option (Nat × Nat)
  image : Option (Nat × Nat)
  start_image : Option (Nat × Nat)
  loop : Bool
  group : Option String
  plays : Option PlaySource
  playing_oversample : Rat
deriving DecidableEq

/-- Global state of the module read by rendering: the backend playing
query, the per-channel decoded frame query, the texture cache, the reset
set, the group continuity cache, the channel occupancy map, the registered
displayable channels, and the video_image_fallback preference. -/
structure VideoEnv where
  playing : String → Bool
  read_video : String → Option Surface
  texture : List (String × Texture)
  reset_channels : List String
  group_texture : List (String × Option Texture)
  channel_movie : List (String × MovieSlot)
  displayable_channels : List ((String × Option String) × List MovieSlot)
  video_image_fallback : Bool

/-! ## Texture cache / frame fetch -/

/-- get_movie_texture for the native path (the emscripten web variant is a
separate optimized function and is not modelled): returns the texture, the
newly-decoded flag, and the updated texture cache.  In side-mask mode the
frame is split in half, left color and right alpha; with a mask channel a
second frame is pulled; a mask without a base frame degrades to no frame;
on success the cache entry is refreshed, on failure the cached entry (if
any) is returned with the flag false. -/
def get_movie_texture (env : VideoEnv) (channel : String) (mask_channel : Option String)
    (side_mask : Bool) : Option Texture × Bool × List (String × Texture) :=
  if env.playing channel = true then
    let surf0 := env.read_video channel
    let sm : Option Surface × Option Surface :=
      if side_mask = true then
        match surf0 with
        | some s =>
          let w := s.get_size.1 / 2
          let h := s.get_size.2
          (some (Surface.sub s 0 0 w h), some (Surface.sub s w 0 w h))
        | none => (none, none)
      else
        match mask_channel with
        | some mc => if mc = "" then (surf0, none) else (surf0, env.read_video mc)
        | none => (surf0, none)
    let surf : Option Surface :=
      match sm.2, sm.1 with
      | some ms, some s => some (Surface.munged ms s)
      | some _, none => none
      | none, s => s
    match surf with
    | some s => (some ⟨s⟩, true, keySet env.texture channel ⟨s⟩)
    | none => (keyGet env.texture channel, false, env.texture)
  else
    (none, false, env.texture)

/-! ## Rendering -/

/-- Abstract description of what a render call produced: the fallback
image blit, a movie texture (with the oversample correction factor), the
start image, the empty zero-size render, or a letterboxed resize of one of
those. -/
inductive Rendered where
  | image (w h : Nat)
  | texture (t : Texture) (oversample : Rat)
  | start_image (w h : Nat)
  | empty
  | resized (inner : Rendered) (w h : Nat)
deriving DecidableEq

/-- True exactly for the output of the fallback-image branch. -/
def Rendered.isFallbackImage : Rendered → Bool
  | .image _ _ => true
  | _ => false

/-- Observable result of Movie.render: the produced render, the updated
texture cache, group cache and channel occupancy map, and the list of
redraw delays scheduled during the call. -/
structure RenderOut where
  rv : Rendered
  texture : List (String × Texture)
  group_texture : List (String × Option Texture)
  channel_movie : List (String × MovieSlot)
  redraws : List Rat
deriving DecidableEq

/-- The `not_playing` computation of Movie.render: the channel reports
nothing playing, unless the channel is in the reset set or the group of
the slot has a key in the group continuity cache. -/
def render_not_playing (env : VideoEnv) (m : MovieSlot) : Bool :=
  let np := !env.playing m.channel
  let np := if m.channel ∈ env.reset_channels then false else np
  match m.group with
  | some g => if keyMem env.group_texture g then false else np
  | none => np

/-- The channel-occupancy registration at the top of Movie.render: record
this slot as occupant of its channel unless it has no effective play source
or the image-fallback preference is active. -/
def render_cm (env : VideoEnv) (m : MovieSlot) : List (String × MovieSlot) :=
  if optTruthy m.plays = true ∧ env.video_image_fallback = false then
    if keyGet env.channel_movie m.channel = some m then env.channel_movie
    else keySet env.channel_movie m.channel m
  else env.channel_movie

/-- The texture selection and group-cache interaction of Movie.render: the
fetched texture, falling back to the group continuity entry when the slot
has a group and no texture of its own, and the group cache after the slot
published its texture into it. -/
def render_tex (env : VideoEnv) (m : MovieSlot) :
    Option Texture × List (String × Option Texture) :=
  let tex0 := (get_movie_texture env m.channel m.mask_channel m.side_mask).1
  match m.group with
  | none => (tex0, env.group_texture)
  | some g =>
    match tex0 with
    | none => ((keyGet env.group_texture g).join, env.group_texture)
    | some t => (some t, keySet env.group_texture g (some t))

/-- The render body of the non-fallback path: the movie texture at native
size with the oversample correction when playing and a texture exists,
else the start image when playing, else the empty render. -/
def render_rv0 (env : VideoEnv) (m : MovieSlot) : Rendered :=
  match render_not_playing env m, (render_tex env m).1 with
  | false, some t => Rendered.texture t m.playing_oversample
  | false, none =>
    match m.start_image with
    | some wh => Rendered.start_image wh.1 wh.2
    | none => Rendered.empty
  | true, _ => Rendered.empty

/-- The non-fallback render after the explicit-size letterboxing. -/
def render_rv (env : VideoEnv) (m : MovieSlot) : Rendered :=
  match m.size with
  | some wh => Rendered.resized (render_rv0 env m) wh.1 wh.2
  | none => render_rv0 env m

/-- Movie.render: registers the slot as occupant of its channel (when it
has an effective play source and the image-fallback preference is off),
computes `not_playing`, and either returns the fallback image immediately
(scheduling no redraw) or fetches the texture, consults and feeds the
group cache, renders texture, start image or nothing, applies the
configured size, and schedules a redraw in 0.1 units.  The requested
width and height only shape the sub-renders of the images, which are
modelled by their intrinsic sizes. -/
def Movie.render (env : VideoEnv) (m : MovieSlot) (_width _height : Nat) : RenderOut :=
  if m.image.isSome ∧ render_not_playing env m = true then
    { rv := Rendered.image (m.image.getD (0, 0)).1 (m.image.getD (0, 0)).2,
      texture := env.texture, group_texture := env.group_texture,
      channel_movie := render_cm env m, redraws := [] }
  else
    { rv := render_rv env m,
      texture := (get_movie_texture env m.channel m.mask_channel m.side_mask).2.2,
      group_texture := (render_tex env m).2, channel_movie := render_cm env m,
      redraws := [(1 : Rat) / 10] }

/-! ## Interact -/

/-- interact: evicts texture cache entries for channels no longer playing,
then computes the fullscreen flag, true only when the dedicated movie
channel is playing and no registered displayable claims channel name
`movie` (the for/else loop over the occupancy keys). -/
def interact (env : VideoEnv) : Bool × List (String × Texture) :=
  let texture2 := env.texture.filter (fun kv => env.playing kv.1)
  let fs :=
    if env.playing "movie" = true then
      if env.displayable_channels.any (fun kv => kv.1.1 == "movie") then false else true
    else false
  (fs, texture2)

/-! ## Playback synchronizer -/

/-- A play or stop command issued to a Movie slot by update_playing,
tagged with the channel it concerns. -/
inductive SyncEvent where
  | play (c : String) (m : MovieSlot) (old : Option MovieSlot)
  | stop (c : String) (m : MovieSlot)
deriving DecidableEq

/-- Configuration read by the synchronizer. -/
structure SyncConfig where
  replay_movie_sprites : Bool

/-- Synchronizer state: this redraw occupancy (`channel_movie`), the
occupancy stored in the session context (`old_channel_movie`), the module
global from the previous run (`last_channel_movie`), and the reset set. -/
structure SyncState where
  channel_movie : List (String × MovieSlot)
  old_channel_movie : List (String × MovieSlot)
  last_channel_movie : List (String × MovieSlot)
  reset_channels : List String
deriving DecidableEq

/-- Lookup of the slot occupying a channel. -/
def slookup (l : List (String × MovieSlot)) (c : String) : Option MovieSlot :=
  keyGet l c

/-- The per-channel decision of the first update_playing loop: a forced
replay when the channel is reset and the config flag is on, no action when
the same slot already drives the channel, a play handing over from the old
occupant when a different slot took the channel, and a loop continuation
against the two-back reference otherwise. -/
def sync_decision (cfg : SyncConfig) (st : SyncState) (cm : String × MovieSlot) :
    Option SyncEvent :=
  let c := cm.1
  let m := cm.2
  let old := slookup st.old_channel_movie c
  let last := slookup st.last_channel_movie c
  if c ∈ st.reset_channels ∧ cfg.replay_movie_sprites = true then some (.play c m old)
  else if old = some m ∨ last = some m then none
  else if old ≠ some m then some (.play c m old)
  else if m.loop = true ∧ last ≠ some m then some (.play c m last)
  else none

/-- Events of the first update_playing loop, in iteration order. -/
def sync_plays (cfg : SyncConfig) (st : SyncState) : List SyncEvent :=
  st.channel_movie.filterMap (sync_decision cfg st)

/-- Entries of last_channel_movie whose channel is absent from this
redraw; their occupants are stopped and their channels recorded. -/
def sync_stops1 (st : SyncState) : List (String × MovieSlot) :=
  st.last_channel_movie.filter (fun kv => (slookup st.channel_movie kv.1).isNone)

/-- Entries of the context occupancy map whose channel is absent from this
redraw and was not already stopped by the first stop pass. -/
def sync_stops2 (st : SyncState) (stopped : List String) : List (String × MovieSlot) :=
  st.old_channel_movie.filter
    (fun kv => (slookup st.channel_movie kv.1).isNone && !(stopped.contains kv.1))

/-- update_playing: issues the play decisions for occupied channels, stops
former occupants of vacated channels (first from the module global map,
recording the stopped set, then from the context map, skipping channels
already stopped), then persists this occupancy as both references and
clears the reset set. -/
def update_playing (cfg : SyncConfig) (st : SyncState) : List SyncEvent × SyncState :=
  let p := sync_plays cfg st
  let s1 := sync_stops1 st
  let stopped := s1.map Prod.fst
  let s2 := sync_stops2 st stopped
  (p ++ s1.map (fun kv => SyncEvent.stop kv.1 kv.2) ++ s2.map (fun kv => SyncEvent.stop kv.1 kv.2),
   { channel_movie := st.channel_movie, old_channel_movie := st.channel_movie,
     last_channel_movie := st.channel_movie, reset_channels := [] })

/-- Stop events concerning channel `c` within an event list. -/
def count_stops_on (c : String) (evs : List SyncEvent) : Nat :=
  (evs.filter (fun e => match e with | .stop c2 _ => c2 == c | _ => false)).length

/-! ## Frequent-update driver: group cache rebuild -/

/-- One step of the group cache rebuild: a slot with a group carries the
old entry for that group forward (defaulting to none), other slots leave
the cache alone. -/
def group_step (old : List (String × Option Texture))
    (acc : List (String × Option Texture)) (m : MovieSlot) : List (String × Option Texture) :=
  match m.group with
  | some g => keySet acc g ((keyGet old g).join)
  | none => acc

/-- The group cache rebuild of frequent(): starting from an empty dict,
every slot registered in displayable_channels contributes its group with
the carried-forward old value. -/
def frequent_group_rebuild (dcs : List ((String × Option String) × List MovieSlot))
    (old : List (String × Option Texture)) : List (String × Option Texture) :=
  dcs.foldl (fun acc kv => kv.2.foldl (group_step old) acc) []

/-! ## Statement helpers and concrete instances used by witnesses -/

/-- Joins pieces with commas, the shape of a comma-separated modifier
sequence inside a filename. -/
def commaJoin : List (List Char) → List Char
  | [] => []
  | [p] => p
  | p :: q :: rest => p ++ ',' :: commaJoin (q :: rest)

/-- Oversampling environment with the search disabled. -/
def oenvNone : OversampleEnv :=
  { automatic_oversampling := none, draw := false, draw_per_virt := 1,
    loadable := fun _ => false }

/-- Oversampling environment with cap 4, scale 2.3 and every file
loadable. -/
def oenv23 : OversampleEnv :=
  { automatic_oversampling := some 4, draw := true, draw_per_virt := mkRat 23 10,
    loadable := fun _ => true }

/-- A filename without an oversampling marker. -/
def fname23 : List Char := "b.w".data

/-- A default slot: looping, on the movie channel, nothing configured. -/
def slot0 : MovieSlot :=
  { id := 0, channel := "movie", mask_channel := none, side_mask := false,
    size := none, image := none, start_image := none, loop := true,
    group := none, plays := none, playing_oversample := 1 }

/-- An environment where nothing is playing and every cache is empty. -/
def envBase : VideoEnv :=
  { playing := fun _ => false, read_video := fun _ => none, texture := [],
    reset_channels := [], group_texture := [], channel_movie := [],
    displayable_channels := [], video_image_fallback := false }

/-- A slot with only a fallback image configured. -/
def slotC5 : MovieSlot :=
  { slot0 with image := some (10, 10) }

/-- A cached texture for the mask-without-base scenario. -/
def texC6 : Texture := ⟨Surface.base 7 4 4⟩

/-- Environment where channel `c` yields no frame but its mask channel
`cm` does, with a stale cache entry for `c`. -/
def envC6 : VideoEnv :=
  { envBase with
    playing := fun _ => true,
    read_video := fun ch => if ch == "cm" then some (Surface.base 1 8 8) else none,
    texture := [("c", texC6)] }

/-- The same mask-without-base environment with an empty texture cache. -/
def envC6e : VideoEnv :=
  { envBase with
    playing := fun _ => true,
    read_video := fun ch => if ch == "cm" then some (Surface.base 1 8 8) else none }

/-- Environment producing a 200 by 100 frame on every channel. -/
def envC8 : VideoEnv :=
  { envBase with
    playing := fun _ => true,
    read_video := fun _ => some (Surface.base 2 200 100) }

/-- Environment where the movie channel is playing and one displayable is
registered on an unrelated channel. -/
def envC9 : VideoEnv :=
  { envBase with
    playing := fun ch => ch == "movie",
    displayable_channels := [(("a", none), [slot0])] }

/-- A grouped slot with a fallback image. -/
def slotG : MovieSlot :=
  { slot0 with channel := "c", group := some "g", image := some (5, 5) }

/-- A displayable-channels registration containing the grouped slot. -/
def dcs10 : List ((String × Option String) × List MovieSlot) :=
  [(("c", none), [slotG])]

/-- Environment whose group cache was just rebuilt from `dcs10` with an
empty previous cache. -/
def envC10 : VideoEnv :=
  { envBase with
    group_texture := frequent_group_rebuild dcs10 [],
    displayable_channels := dcs10 }

/-- Synchronizer state where channel `a` was occupied in both history maps
and is unoccupied now. -/
def stC4 : SyncState :=
  { channel_movie := [], old_channel_movie := [("a", slot0)],
    last_channel_movie := [("a", slot0)], reset_channels := [] }

/-! ## Lemmas about the string primitives -/

theorem splitFirst_append (sep : Char) (l r : List Char) (h : sep ∉ l) :
    splitFirst sep (l ++ sep :: r) = some (l, r) := by
  induction l with
  | nil => simp [splitFirst]
  | cons c t ih =>
    have hc : ¬c = sep := by
      intro e
      exact h (e ▸ List.mem_cons_self c t)
    have ht : sep ∉ t := fun hm => h (List.mem_cons_of_mem _ hm)
    simp [splitFirst, hc, ih ht]

theorem splitFirst_eq_none (sep : Char) (l : List Char) (h : sep ∉ l) :
    splitFirst sep l = none := by
  induction l with
  | nil => rfl
  | cons c t ih =>
    have hc : ¬c = sep := by
      intro e
      exact h (e ▸ List.mem_cons_self c t)
    have ht : sep ∉ t := fun hm => h (List.mem_cons_of_mem _ hm)
    simp [splitFirst, hc, ih ht]

theorem splitLast_append (sep : Char) (l r : List Char) (h : sep ∉ r) :
    splitLast sep (l ++ sep :: r) = some (l, r) := by
  have hrev : sep ∉ r.reverse := by simpa using h
  have hshape : (l ++ sep :: r).reverse = r.reverse ++ sep :: l.reverse := by
    simp [List.reverse_append]
  rw [splitLast, hshape, splitFirst_append sep _ _ hrev]
  simp

theorem splitLast_eq_none (sep : Char) (l : List Char) (h : sep ∉ l) :
    splitLast sep l = none := by
  have hrev : sep ∉ l.reverse := by simpa using h
  rw [splitLast, splitFirst_eq_none sep _ hrev]

theorem pySplit_ne_nil (sep : Char) (l : List Char) : pySplit sep l ≠ [] := by
  induction l with
  | nil => simp [pySplit]
  | cons c t ih =>
    by_cases hc : c = sep
    · simp [pySplit, hc]
    · simp only [pySplit, if_neg hc]
      cases hp : pySplit sep t with
      | nil => simp
      | cons g gs => simp

theorem pySplit_append (sep : Char) (a b : List Char) :
    pySplit sep (a ++ sep :: b) = pySplit sep a ++ pySplit sep b := by
  induction a with
  | nil => simp [pySplit]
  | cons c t ih =>
    by_cases hc : c = sep
    · simp [pySplit, hc, ih]
    · cases hp : pySplit sep t with
      | nil => exact absurd hp (pySplit_ne_nil sep t)
      | cons g gs => simp [pySplit, if_neg hc, ih, hp]

theorem pySplit_no_sep (sep : Char) (l : List Char) (h : sep ∉ l) :
    pySplit sep l = [l] := by
  induction l with
  | nil => rfl
  | cons c t ih =>
    have hc : ¬c = sep := by
      intro e
      exact h (e ▸ List.mem_cons_self c t)
    have ht : sep ∉ t := fun hm => h (List.mem_cons_of_mem _ hm)
    simp [pySplit, hc, ih ht]

theorem mem_commaJoin {c : Char} : ∀ {ps : List (List Char)},
    c ∈ commaJoin ps → c = ',' ∨ ∃ p ∈ ps, c ∈ p
  | [], h => by simp [commaJoin] at h
  | [p], h => by
    right
    exact ⟨p, by simp, by simpa [commaJoin] using h⟩
  | p :: q :: rest, h => by
    rw [commaJoin] at h
    rcases List.mem_append.mp h with h1 | h2
    · right
      exact ⟨p, by simp, h1⟩
    · rcases List.mem_cons.mp h2 with h3 | h4
      · left
        exact h3
      · rcases mem_commaJoin h4 with h5 | ⟨r, hr, hcr⟩
        · left
          exact h5
        · right
          exact ⟨r, List.mem_cons_of_mem _ hr, hcr⟩

theorem pySplit_commaJoin : ∀ (ps : List (List Char)), ps ≠ [] →
    (∀ p ∈ ps, ',' ∉ p) → pySplit ',' (commaJoin ps) = ps
  | [], h, _ => absurd rfl h
  | [p], _, hp => by
    rw [commaJoin, pySplit_no_sep ',' p (hp p (by simp))]
  | p :: q :: rest, _, hp => by
    rw [commaJoin, pySplit_append,
      pySplit_no_sep ',' p (hp p (by simp)),
      pySplit_commaJoin (q :: rest) (by simp)
        (fun r hr => hp r (List.mem_cons_of_mem _ hr))]
    rfl

theorem parse_modifier_all (fn : List Char) :
    ∀ (ps : List (List Char)) (acc : Rat) (nstr : List Char) (N : Rat),
      (∀ p ∈ ps, (pyFloat p).isSome = true) → pyFloat nstr = some N →
      parse_modifier_list fn acc (ps ++ [nstr]) = .ok N
  | [], acc, nstr, N, _, hN => by
    simp [parse_modifier_list, hN]
  | p :: rest, acc, nstr, N, hall, hN => by
    rcases Option.isSome_iff_exists.mp (hall p (by simp)) with ⟨v, hv⟩
    rw [List.cons_append]
    simp only [parse_modifier_list, hv]
    exact parse_modifier_all fn rest v nstr N (fun r hr => hall r (by simp [hr])) hN

/-! ## Claim C1 -/

/-- C1 counterexample: the claim states that the first comma-separated
value after the `@` wins and that resolving `base@N,extras.ext`
re-extracts `N`; on the concrete filename `b@2,3.w` (base `b`, N = 2,
extras `3`, ext `w`) the code yields factor 3, the last value, not 2. -/
theorem C1_counterexample :
    find_oversampled oenvNone none (.str ("b@2,3.w".data)) =
      .ok (.str ("b@2,3.w".data), 3) ∧ (3 : Rat) ≠ 2 := by
  constructor
  · rfl
  · decide

/-- C1 (amended): for every filename of the form
`base@m1,...,mk,N.ext` — the modifiers free of `@`, `/` and commas, the
extension free of dots, the name not starting with `<` — whose modifiers
all parse as floats and whose last modifier parses to `N`, the resolver
returns the filename unchanged with effective factor `N`: every modifier
must be a valid float (a malformed one raises a descriptive error) and the
last one, not the first, becomes the effective oversample factor. -/
theorem C1_theorem (oenv : OversampleEnv) (base ext nstr : List Char)
    (parts : List (List Char)) (N : Rat)
    (hN : pyFloat nstr = some N)
    (hparts : ∀ p ∈ parts, (pyFloat p).isSome = true)
    (hsep : ∀ p ∈ parts ++ [nstr], '@' ∉ p ∧ '/' ∉ p ∧ ',' ∉ p)
    (hext : '.' ∉ ext)
    (hhead : (base ++ '@' :: commaJoin (parts ++ [nstr]) ++ '.' :: ext).head? ≠ some '<') :
    find_oversampled oenv none
        (.str (base ++ '@' :: commaJoin (parts ++ [nstr]) ++ '.' :: ext)) =
      .ok (.str (base ++ '@' :: commaJoin (parts ++ [nstr]) ++ '.' :: ext), N) := by
  have hat : '@' ∈ base ++ '@' :: commaJoin (parts ++ [nstr]) ++ '.' :: ext :=
    List.mem_append_left _ (List.mem_append_right _ (List.mem_cons_self _ _))
  have hcont : (base ++ '@' :: commaJoin (parts ++ [nstr]) ++ '.' :: ext).contains '@' = true := by
    simp only [List.contains, List.elem_iff]
    exact hat
  have hffi : find_oversampled_filename oenv
      (base ++ '@' :: commaJoin (parts ++ [nstr]) ++ '.' :: ext) =
      base ++ '@' :: commaJoin (parts ++ [nstr]) ++ '.' :: ext := by
    rw [find_oversampled_filename, if_neg]
    intro hcond
    rw [hcond.1] at hcont
    exact Bool.false_ne_true hcont
  have hnocomma : ∀ p ∈ parts ++ [nstr], ',' ∉ p := fun p hp => (hsep p hp).2.2
  have hjat : '@' ∉ commaJoin (parts ++ [nstr]) := by
    intro hmem
    rcases mem_commaJoin hmem with h1 | ⟨p, hp, hcp⟩
    · exact absurd h1 (by decide)
    · exact (hsep p hp).1 hcp
  have hjsl : '/' ∉ commaJoin (parts ++ [nstr]) := by
    intro hmem
    rcases mem_commaJoin hmem with h1 | ⟨p, hp, hcp⟩
    · exact absurd h1 (by decide)
    · exact (hsep p hp).2.1 hcp
  have hrdot : pyRPartition (base ++ '@' :: commaJoin (parts ++ [nstr]) ++ '.' :: ext) '.' =
      (base ++ '@' :: commaJoin (parts ++ [nstr]), ['.'], ext) := by
    rw [pyRPartition, splitLast_append '.' _ _ hext]
  have hrat : pyRPartition (base ++ '@' :: commaJoin (parts ++ [nstr])) '@' =
      (base, ['@'], commaJoin (parts ++ [nstr])) := by
    rw [pyRPartition, splitLast_append '@' _ _ hjat]
  have hpsl : pyPartition (commaJoin (parts ++ [nstr])) '/' =
      (commaJoin (parts ++ [nstr]), [], []) := by
    rw [pyPartition, splitFirst_eq_none '/' _ hjsl]
  rw [find_oversampled]
  simp only [hffi, hcont, if_true]
  rw [if_neg hhead]
  simp only [hrdot, hrat, hpsl]
  rw [pySplit_commaJoin (parts ++ [nstr]) (by simp) hnocomma,
    parse_modifier_all _ parts 1 nstr N hparts hN]

/-- C1 witness: the amended claim applied to the filename
`m@2,3.5.webm`, whose modifier list is `2, 3.5`; the effective factor is
the last value `3.5 = 7/2`. -/
theorem C1_witness :
    find_oversampled oenvNone none
        (.str ("m".data ++ '@' :: commaJoin (["2".data] ++ ["3.5".data]) ++ '.' :: "webm".data)) =
      .ok (.str ("m".data ++ '@' :: commaJoin (["2".data] ++ ["3.5".data]) ++ '.' :: "webm".data),
        mkRat 7 2) :=
  C1_theorem oenvNone "m".data "webm".data "3.5".data ["2".data] (mkRat 7 2)
    (by decide) (by decide) (by decide) (by decide) (by decide)

/-! ## Claim C2 -/

/-- Characterization of find? over the descending candidate list: either
no candidate in `[2, a]` satisfies the predicate, or the largest
satisfying candidate is found, with every larger candidate failing. -/
theorem find_rangeDown_spec (p : Nat → Bool) : ∀ (a : Nat),
    ((rangeDown a).find? p = none ∧ ∀ j, 2 ≤ j → j ≤ a → p j = false) ∨
    (∃ i, 2 ≤ i ∧ i ≤ a ∧ p i = true ∧ (∀ j, i < j → j ≤ a → p j = false) ∧
      (rangeDown a).find? p = some i)
  | 0 => Or.inl ⟨rfl, fun j h1 h2 => by omega⟩
  | 1 => Or.inl ⟨rfl, fun j h1 h2 => by omega⟩
  | n + 2 => by
    cases hp : p (n + 2) with
    | true =>
      right
      refine ⟨n + 2, by omega, Nat.le_refl _, hp, fun j hj1 hj2 => by omega, ?_⟩
      rw [rangeDown]
      exact List.find?_cons_of_pos _ hp
    | false =>
      rcases find_rangeDown_spec p (n + 1) with ⟨hn, hall⟩ | ⟨i, h2i, hia, hpi, hafter, hfind⟩
      · left
        constructor
        · rw [rangeDown, List.find?_cons_of_neg _ (by simp [hp]), hn]
        · intro j hj1 hj2
          rcases Nat.lt_or_ge j (n + 2) with hlt | hge
          · exact hall j hj1 (by omega)
          · have hje : j = n + 2 := by omega
            rw [hje]
            exact hp
      · right
        refine ⟨i, h2i, by omega, hpi, ?_, ?_⟩
        · intro j hj1 hj2
          rcases Nat.lt_or_ge j (n + 2) with hlt | hge
          · exact hafter j hj1 (by omega)
          · have hje : j = n + 2 := by omega
            rw [hje]
            exact hp
        · rw [rangeDown, List.find?_cons_of_neg _ (by simp [hp]), hfind]

/-- The quantity `2 ^ Nat.clog 2 ⌈q⌉.toNat` used by the resolver is the
least power of two that is at least `q`, for every scale `q > 1`. -/
theorem pow_clog_spec (q : Rat) (hq : 1 < q) :
    q ≤ ((2 ^ Nat.clog 2 ⌈q⌉.toNat : Nat) : Rat) ∧
    ∀ k : Nat, q ≤ ((2 ^ k : Nat) : Rat) → 2 ^ Nat.clog 2 ⌈q⌉.toNat ≤ 2 ^ k := by
  have hq0 : (0 : Rat) < q := lt_trans one_pos hq
  have hcpos : (0 : Int) < ⌈q⌉ := Int.ceil_pos.mpr hq0
  have htn : ((⌈q⌉.toNat : Int)) = ⌈q⌉ := Int.toNat_of_nonneg hcpos.le
  constructor
  · calc q ≤ ((⌈q⌉ : Int) : Rat) := Int.le_ceil q
      _ = ((⌈q⌉.toNat : Nat) : Rat) := by exact_mod_cast htn.symm
      _ ≤ ((2 ^ Nat.clog 2 ⌈q⌉.toNat : Nat) : Rat) := by
          exact_mod_cast Nat.le_pow_clog one_lt_two _
  · intro k hk
    have h2 : ⌈q⌉ ≤ ((2 ^ k : Nat) : Int) := Int.ceil_le.mpr (by exact_mod_cast hk)
    have h3 : ⌈q⌉.toNat ≤ 2 ^ k := Int.toNat_le.mpr h2
    exact Nat.pow_le_pow_right (by norm_num) ((Nat.le_pow_iff_clog_le one_lt_two).mp h3)

/-- C2: when automatic oversampling applies (no `@` in the filename, a cap
configured, a draw object with scale above 1), the maximum candidate is
the least power of two at least the scale, capped by the configuration;
either some candidate in `[2, max]` is loadable and the largest loadable
one with no larger loadable candidate replaces the filename, or none is
loadable and the original filename is kept with effective factor 1. -/
theorem C2_theorem (oenv : OversampleEnv) (cap : Nat) (filename : List Char)
    (h1 : (filename.contains '@') = false)
    (h2 : oenv.automatic_oversampling = some cap)
    (h3 : oenv.draw = true)
    (h4 : 1 < oenv.draw_per_virt) :
    (oenv.draw_per_virt ≤ ((2 ^ Nat.clog 2 ⌈oenv.draw_per_virt⌉.toNat : Nat) : Rat) ∧
      ∀ k : Nat, oenv.draw_per_virt ≤ ((2 ^ k : Nat) : Rat) →
        2 ^ Nat.clog 2 ⌈oenv.draw_per_virt⌉.toNat ≤ 2 ^ k) ∧
    ((∃ i, 2 ≤ i ∧ i ≤ min (2 ^ Nat.clog 2 ⌈oenv.draw_per_virt⌉.toNat) cap ∧
        Movie.any_loadable oenv.loadable (.str (oversample_candidate filename i)) = true ∧
        (∀ j, i < j → j ≤ min (2 ^ Nat.clog 2 ⌈oenv.draw_per_virt⌉.toNat) cap →
          Movie.any_loadable oenv.loadable (.str (oversample_candidate filename j)) = false) ∧
        find_oversampled_filename oenv filename = oversample_candidate filename i) ∨
      ((∀ j, 2 ≤ j → j ≤ min (2 ^ Nat.clog 2 ⌈oenv.draw_per_virt⌉.toNat) cap →
          Movie.any_loadable oenv.loadable (.str (oversample_candidate filename j)) = false) ∧
        find_oversampled_filename oenv filename = filename ∧
        find_oversampled oenv none (.str filename) = .ok (.str filename, 1))) := by
  refine ⟨pow_clog_spec oenv.draw_per_virt h4, ?_⟩
  have hffi : find_oversampled_filename oenv filename =
      (match (rangeDown (min (2 ^ Nat.clog 2 ⌈oenv.draw_per_virt⌉.toNat) cap)).find?
          (fun i => Movie.any_loadable oenv.loadable (.str (oversample_candidate filename i))) with
        | some i => oversample_candidate filename i
        | none => filename) := by
    rw [find_oversampled_filename, if_pos]
    · simp [h2]
    · exact ⟨h1, by rw [h2]; rfl, h3, h4⟩
  rcases find_rangeDown_spec
      (fun i => Movie.any_loadable oenv.loadable (.str (oversample_candidate filename i)))
      (min (2 ^ Nat.clog 2 ⌈oenv.draw_per_virt⌉.toNat) cap) with
    ⟨hnone, hall⟩ | ⟨i, h2i, hiM, hpi, hafter, hfind⟩
  · right
    have hid : find_oversampled_filename oenv filename = filename := by
      rw [hffi, hnone]
    refine ⟨hall, hid, ?_⟩
    simp only [find_oversampled, hid]
    rw [if_neg (by rw [h1]; exact Bool.false_ne_true)]
  · left
    exact ⟨i, h2i, hiM, hpi, hafter, by rw [hffi, hfind]⟩

/-- C2 witness: with a scale of 2.3, cap 4 and every candidate loadable,
the theorem applies; the first (largest) candidate tried is
`min (2 ^ clog 2 3) 4 = 4`, the next power of two above 2.3. -/
theorem C2_witness :
    (oenv23.draw_per_virt ≤ ((2 ^ Nat.clog 2 ⌈oenv23.draw_per_virt⌉.toNat : Nat) : Rat) ∧
      ∀ k : Nat, oenv23.draw_per_virt ≤ ((2 ^ k : Nat) : Rat) →
        2 ^ Nat.clog 2 ⌈oenv23.draw_per_virt⌉.toNat ≤ 2 ^ k) ∧
    ((∃ i, 2 ≤ i ∧ i ≤ min (2 ^ Nat.clog 2 ⌈oenv23.draw_per_virt⌉.toNat) 4 ∧
        Movie.any_loadable oenv23.loadable (.str (oversample_candidate fname23 i)) = true ∧
        (∀ j, i < j → j ≤ min (2 ^ Nat.clog 2 ⌈oenv23.draw_per_virt⌉.toNat) 4 →
          Movie.any_loadable oenv23.loadable (.str (oversample_candidate fname23 j)) = false) ∧
        find_oversampled_filename oenv23 fname23 = oversample_candidate fname23 i) ∨
      ((∀ j, 2 ≤ j → j ≤ min (2 ^ Nat.clog 2 ⌈oenv23.draw_per_virt⌉.toNat) 4 →
          Movie.any_loadable oenv23.loadable (.str (oversample_candidate fname23 j)) = false) ∧
        find_oversampled_filename oenv23 fname23 = fname23 ∧
        find_oversampled oenv23 none (.str fname23) = .ok (.str fname23, 1))) :=
  C2_theorem oenv23 4 fname23 (by decide) rfl rfl (by decide)

/-! ## Lemmas about the synchronizer -/

theorem keyMem_iff {β : Type} (l : List (String × β)) (c : String) :
    keyMem l c = true ↔ c ∈ l.map Prod.fst := by
  simp only [keyMem, List.any_eq_true, List.mem_map, beq_iff_eq]

theorem filter_key_eq_nil {β : Type} (l : List (String × β)) (c : String)
    (h : keyMem l c = false) : l.filter (fun kv => kv.1 == c) = [] := by
  rw [List.filter_eq_nil_iff]
  intro kv hkv hbeq
  have hmem : keyMem l c = true := by
    rw [keyMem, List.any_eq_true]
    exact ⟨kv, hkv, hbeq⟩
  rw [h] at hmem
  exact Bool.false_ne_true hmem

theorem length_filter_key {β : Type} : ∀ (l : List (String × β)) (c : String),
    (l.map Prod.fst).Nodup →
    (l.filter (fun kv => kv.1 == c)).length = if keyMem l c = true then 1 else 0
  | [], c, _ => by simp [keyMem]
  | kv :: t, c, h => by
    rw [List.map_cons, List.nodup_cons] at h
    by_cases hb : kv.1 = c
    · have htail : keyMem t c = false := by
        cases hkm : keyMem t c with
        | false => rfl
        | true =>
          rw [keyMem_iff] at hkm
          exact absurd (by rw [hb]; exact hkm) h.1
      have hkm2 : keyMem (kv :: t) c = true := by
        rw [keyMem, List.any_cons]
        simp [hb]
      rw [List.filter_cons, if_pos (by simp [hb]), filter_key_eq_nil t c htail, hkm2]
      simp
    · have hkm2 : keyMem (kv :: t) c = keyMem t c := by
        rw [keyMem, List.any_cons]
        simp [hb, keyMem]
      rw [List.filter_cons, if_neg (by simp [hb]), length_filter_key t c h.2, hkm2]

theorem contains_map_fst_filter {β : Type} (q : (String × β) → Bool) (c : String)
    (hq : ∀ kv : String × β, kv.1 = c → q kv = true) :
    ∀ (l : List (String × β)), ((l.filter q).map Prod.fst).contains c = keyMem l c
  | [] => rfl
  | kv :: t => by
    have hrec := contains_map_fst_filter q c hq t
    by_cases hb : kv.1 = c
    · have hkm : keyMem (kv :: t) c = true := by
        rw [keyMem, List.any_cons]
        simp [hb]
      rw [List.filter_cons, if_pos (by simp [hq kv hb]), List.map_cons,
        List.contains_cons, hkm]
      simp only [hb, beq_self_eq_true, Bool.true_or]
    · have hkm : keyMem (kv :: t) c = keyMem t c := by
        rw [keyMem, List.any_cons]
        simp [hb, keyMem]
      cases hqv : q kv with
      | false =>
        rw [List.filter_cons, if_neg (by simp [hqv]), hrec, hkm]
      | true =>
        rw [List.filter_cons, if_pos (by simp [hqv]), List.map_cons,
          List.contains_cons, hrec, hkm]
        have hne : (c == kv.1) = false := by
          simp only [beq_eq_false_iff_ne, ne_eq]
          intro he
          exact hb he.symm
        rw [hne, Bool.false_or]

theorem count_stops_on_append (c : String) (l1 l2 : List SyncEvent) :
    count_stops_on c (l1 ++ l2) = count_stops_on c l1 + count_stops_on c l2 := by
  simp [count_stops_on, List.filter_append]

theorem count_stops_on_play (c a : String) (b : MovieSlot) (o : Option MovieSlot)
    (l : List SyncEvent) :
    count_stops_on c (SyncEvent.play a b o :: l) = count_stops_on c l := by
  simp [count_stops_on, List.filter_cons]

theorem count_stops_on_map_stop (c : String) : ∀ (l : List (String × MovieSlot)),
    count_stops_on c (l.map (fun kv => SyncEvent.stop kv.1 kv.2)) =
    (l.filter (fun kv => kv.1 == c)).length
  | [] => rfl
  | kv :: t => by
    have hrec := count_stops_on_map_stop c t
    cases hb : (kv.1 == c) with
    | true =>
      simp only [List.map_cons, count_stops_on, List.filter_cons, hb] at hrec ⊢
      simp [hrec]
    | false =>
      simp only [List.map_cons, count_stops_on, List.filter_cons, hb] at hrec ⊢
      simp [hrec]

theorem sync_decision_play_shape (cfg : SyncConfig) (st : SyncState)
    (cm : String × MovieSlot) (e : SyncEvent) (h : sync_decision cfg st cm = some e) :
    ∃ a b o, e = SyncEvent.play a b o := by
  rw [sync_decision] at h
  split_ifs at h with h1 h2 h3 h4
  · injection h with h5
    exact ⟨_, _, _, h5.symm⟩
  · injection h with h5
    exact ⟨_, _, _, h5.symm⟩
  · injection h with h5
    exact ⟨_, _, _, h5.symm⟩

theorem count_stops_sync_plays (cfg : SyncConfig) (st : SyncState) (c : String) :
    count_stops_on c (sync_plays cfg st) = 0 := by
  rw [sync_plays]
  generalize st.channel_movie = l
  induction l with
  | nil => rfl
  | cons cm t ih =>
    rw [List.filterMap_cons]
    cases hd : sync_decision cfg st cm with
    | none => exact ih
    | some e =>
      rcases sync_decision_play_shape cfg st cm e hd with ⟨a, b, o, rfl⟩
      rw [count_stops_on_play, ih]

/-! ## Claim C3 -/

/-- C3: a single looping slot occupying the same channel over three
consecutive synchronizer runs, starting from empty history, gets exactly
one play command (with no previous occupant) on the first run; the state
after the first run is the fixed point in which the second and third runs
issue no play or stop events at all.  Between runs the occupancy map is
cleared and rebuilt by rendering to the same single entry, which is
exactly the value the synchronizer leaves in place. -/
theorem C3_theorem (cfg : SyncConfig) (c : String) (m : MovieSlot)
    (_hm : m.loop = true) :
    (update_playing cfg ⟨[(c, m)], [], [], []⟩).1 = [SyncEvent.play c m none] ∧
    (update_playing cfg ⟨[(c, m)], [], [], []⟩).2 =
      ⟨[(c, m)], [(c, m)], [(c, m)], []⟩ ∧
    (update_playing cfg ⟨[(c, m)], [(c, m)], [(c, m)], []⟩).1 = [] ∧
    (update_playing cfg ⟨[(c, m)], [(c, m)], [(c, m)], []⟩).2 =
      ⟨[(c, m)], [(c, m)], [(c, m)], []⟩ := by
  refine ⟨?_, rfl, ?_, rfl⟩
  · simp [update_playing, sync_plays, sync_decision, sync_stops1, sync_stops2,
      slookup, keyGet, List.filterMap_cons, List.find?]
  · simp [update_playing, sync_plays, sync_decision, sync_stops1, sync_stops2,
      slookup, keyGet, List.filterMap_cons, List.find?]

/-- C3 witness: the theorem at the default looping slot on the movie
channel with replay disabled. -/
theorem C3_witness :
    slot0.loop = true ∧
    (update_playing ⟨false⟩ ⟨[("movie", slot0)], [], [], []⟩).1 =
      [SyncEvent.play "movie" slot0 none] :=
  ⟨rfl, (C3_theorem ⟨false⟩ "movie" slot0 rfl).1⟩

/-! ## Claim C4 -/

/-- C4: in one synchronizer run, a channel that is absent from the current
occupancy map but was present in the module-global previous map or in the
context map (with duplicate-free keys, as Python dicts guarantee) receives
exactly one stop command: the first stop pass records what it stopped and
the second pass skips those channels. -/
theorem C4_theorem (cfg : SyncConfig) (st : SyncState) (c : String)
    (hnl : (st.last_channel_movie.map Prod.fst).Nodup)
    (hno : (st.old_channel_movie.map Prod.fst).Nodup)
    (habs : slookup st.channel_movie c = none)
    (hocc : keyMem st.last_channel_movie c = true ∨
      keyMem st.old_channel_movie c = true) :
    count_stops_on c (update_playing cfg st).1 = 1 := by
  have hq1 : ∀ kv : String × MovieSlot, kv.1 = c →
      ((slookup st.channel_movie kv.1).isNone : Bool) = true := by
    intro kv hkv
    rw [hkv, habs]
    rfl
  have hcongr1 : ∀ kv ∈ st.last_channel_movie,
      ((kv.1 == c) && (slookup st.channel_movie kv.1).isNone) = (kv.1 == c) := by
    intro kv _
    by_cases hb : kv.1 = c
    · rw [hq1 kv hb]
      simp
    · have : (kv.1 == c) = false := by simp [hb]
      rw [this]
      simp
  have hs1 : count_stops_on c
      ((sync_stops1 st).map (fun kv => SyncEvent.stop kv.1 kv.2)) =
      if keyMem st.last_channel_movie c = true then 1 else 0 := by
    rw [count_stops_on_map_stop, sync_stops1, List.filter_filter,
      List.filter_congr hcongr1, length_filter_key _ c hnl]
  have hstopped : (((sync_stops1 st).map Prod.fst).contains c) =
      keyMem st.last_channel_movie c := by
    rw [sync_stops1]
    exact contains_map_fst_filter _ c hq1 _
  rw [update_playing]
  rw [count_stops_on_append, count_stops_on_append, count_stops_sync_plays, hs1]
  cases hlast : keyMem st.last_channel_movie c with
  | true =>
    have hs2 : count_stops_on c
        ((sync_stops2 st ((sync_stops1 st).map Prod.fst)).map
          (fun kv => SyncEvent.stop kv.1 kv.2)) = 0 := by
      rw [count_stops_on_map_stop, sync_stops2, List.filter_filter]
      have hzero : ∀ kv ∈ st.old_channel_movie,
          ((kv.1 == c) &&
            ((slookup st.channel_movie kv.1).isNone &&
              !(((sync_stops1 st).map Prod.fst).contains kv.1))) = false := by
        intro kv _
        by_cases hb : kv.1 = c
        · rw [hb, hstopped, hlast]
          simp
        · have : (kv.1 == c) = false := by simp [hb]
          rw [this]
          simp
      rw [List.filter_congr hzero]
      simp
    rw [hs2]
    simp
  | false =>
    have holdmem : keyMem st.old_channel_movie c = true := by
      rcases hocc with h | h
      · rw [hlast] at h
        exact absurd h Bool.false_ne_true
      · exact h
    have hs2 : count_stops_on c
        ((sync_stops2 st ((sync_stops1 st).map Prod.fst)).map
          (fun kv => SyncEvent.stop kv.1 kv.2)) = 1 := by
      rw [count_stops_on_map_stop, sync_stops2, List.filter_filter]
      have hcongr2 : ∀ kv ∈ st.old_channel_movie,
          ((kv.1 == c) &&
            ((slookup st.channel_movie kv.1).isNone &&
              !(((sync_stops1 st).map Prod.fst).contains kv.1))) = (kv.1 == c) := by
        intro kv _
        by_cases hb : kv.1 = c
        · rw [hb, hstopped, hlast, habs]
          simp
        · have : (kv.1 == c) = false := by simp [hb]
          rw [this]
          simp
      rw [List.filter_congr hcongr2, length_filter_key _ c hno, holdmem]
      rfl
    rw [hs2]
    simp

/-- C4 witness: channel `a` occupied by the default slot in both history
maps, absent now: exactly one stop command is issued for it. -/
theorem C4_witness : count_stops_on "a" (update_playing ⟨false⟩ stC4).1 = 1 :=
  C4_theorem ⟨false⟩ stC4 "a" (by decide) (by decide) (by decide)
    (Or.inl (by decide))

/-! ## Lemmas about rendering -/

theorem render_fallback_case (env : VideoEnv) (m : MovieSlot) (w h : Nat)
    (hc : m.image.isSome = true ∧ render_not_playing env m = true) :
    Movie.render env m w h =
      { rv := Rendered.image (m.image.getD (0, 0)).1 (m.image.getD (0, 0)).2,
        texture := env.texture, group_texture := env.group_texture,
        channel_movie := render_cm env m, redraws := [] } := by
  rw [Movie.render, if_pos hc]

theorem render_not_fallback_case (env : VideoEnv) (m : MovieSlot) (w h : Nat)
    (hc : ¬(m.image.isSome = true ∧ render_not_playing env m = true)) :
    Movie.render env m w h =
      { rv := render_rv env m,
        texture := (get_movie_texture env m.channel m.mask_channel m.side_mask).2.2,
        group_texture := (render_tex env m).2, channel_movie := render_cm env m,
        redraws := [(1 : Rat) / 10] } := by
  rw [Movie.render, if_neg hc]

theorem render_rv0_not_image (env : VideoEnv) (m : MovieSlot) :
    (render_rv0 env m).isFallbackImage = false := by
  rw [render_rv0]
  cases hnp : render_not_playing env m with
  | true => cases ht : (render_tex env m).1 <;> rfl
  | false =>
    cases ht : (render_tex env m).1 with
    | some t => rfl
    | none => cases hsi : m.start_image <;> rfl

theorem render_rv_not_image (env : VideoEnv) (m : MovieSlot) :
    (render_rv env m).isFallbackImage = false := by
  rw [render_rv]
  cases hs : m.size with
  | some wh => rfl
  | none => exact render_rv0_not_image env m

/-! ## Claim C5 -/

/-- C5 counterexample: the claim states every render call schedules a
0.1-unit redraw, including the fallback-image branch; in an environment
where nothing is playing, a slot with only a fallback image renders the
image and schedules no redraw at all (the branch returns early). -/
theorem C5_counterexample :
    (Movie.render envBase slotC5 100 100).redraws = [] ∧
    (Movie.render envBase slotC5 100 100).rv = Rendered.image 10 10 := by
  constructor
  · rfl
  · rfl

/-- C5 (amended): every render call schedules exactly one short-interval
(0.1 unit) redraw unless it takes the early-return fallback-image branch,
which schedules none; the result is the fallback image exactly when that
branch was taken. -/
theorem C5_theorem (env : VideoEnv) (m : MovieSlot) (w h : Nat) :
    (Movie.render env m w h).redraws =
      (if (Movie.render env m w h).rv.isFallbackImage = true then []
        else [(1 : Rat) / 10]) := by
  by_cases hc : m.image.isSome = true ∧ render_not_playing env m = true
  · rw [render_fallback_case env m w h hc]
    rfl
  · rw [render_not_fallback_case env m w h hc]
    simp [render_rv_not_image env m]

/-! ## Claim C6 -/

/-- C6 counterexample: the claim states that when a mask frame is present
but the primary frame is absent the overall result of the call is none;
with a stale cache entry the call instead returns the cached texture (the
new flag is false and the cache is unchanged, but the result is not
none). -/
theorem C6_counterexample :
    get_movie_texture envC6 "c" (some "cm") false =
      (some texC6, false, [("c", texC6)]) ∧
    some texC6 ≠ (none : Option Texture) := by
  constructor
  · rfl
  · simp

/-- C6 (amended): when the mask channel yields a frame but the primary
channel yields none, no usable new frame results: the call returns the
previously cached texture for the channel (none when there is no cache
entry), reports not-new, makes no new cache entry, and raises no
exception (the compositing path is skipped). -/
theorem C6_theorem (env : VideoEnv) (ch mc : String) (ms : Surface)
    (hp : env.playing ch = true) (hmc : ¬mc = "")
    (hprim : env.read_video ch = none) (hmask : env.read_video mc = some ms) :
    get_movie_texture env ch (some mc) false =
      (keyGet env.texture ch, false, env.texture) := by
  rw [get_movie_texture, if_pos hp]
  simp [hprim, hmask, hmc]

/-- C6 witness: the amended claim at the concrete mask-without-base
environment with an empty cache, where the result is indeed none. -/
theorem C6_witness :
    envC6e.playing "c" = true ∧
    get_movie_texture envC6e "c" (some "cm") false =
      ((none : Option Texture), false, ([] : List (String × Texture))) :=
  ⟨rfl, C6_theorem envC6e "c" "cm" (Surface.base 1 8 8) rfl (by decide)
    (by decide) (by decide)⟩

/-! ## Claim C7 -/

/-- C7: a Movie constructed with a play source always retains the original
request in `_original_play`; the effective `_play` is set if and only if
`any_loadable` accepts the source, and when no candidate path is loadable
the slot ends with `_play` unset and no error (the constructor logic is a
total function). -/
theorem C7_theorem (loadable : List Char → Bool) (p : PlaySource) :
    (Movie.init_play loadable (some p)).2 = some p ∧
    ((Movie.init_play loadable (some p)).1.isSome = true ↔
      Movie.any_loadable loadable p = true) ∧
    (Movie.any_loadable loadable p = false →
      Movie.init_play loadable (some p) = (none, some p)) := by
  by_cases h : Movie.any_loadable loadable p = true
  · refine ⟨rfl, ?_, ?_⟩
    · simp [Movie.init_play, h]
    · intro hf
      rw [hf] at h
      exact absurd h (by simp)
  · have hf : Movie.any_loadable loadable p = false := by
      cases hb : Movie.any_loadable loadable p
      · rfl
      · exact absurd hb h
    refine ⟨rfl, ?_, ?_⟩
    · simp [Movie.init_play, hf]
    · intro _
      simp [Movie.init_play, hf]

/-- C7 witness: a play source whose single candidate is not loadable:
the original request is retained, the effective source stays unset. -/
theorem C7_witness :
    (Movie.init_play (fun _ => false) (some (.str "a.webm".data))).2 =
      some (.str "a.webm".data) ∧
    ((Movie.init_play (fun _ => false) (some (.str "a.webm".data))).1.isSome = true ↔
      Movie.any_loadable (fun _ => false) (.str "a.webm".data) = true) ∧
    (Movie.any_loadable (fun _ => false) (.str "a.webm".data) = false →
      Movie.init_play (fun _ => false) (some (.str "a.webm".data)) =
        (none, some (.str "a.webm".data))) :=
  C7_theorem (fun _ => false) (.str "a.webm".data)

/-! ## Claim C8 -/

/-- C8: in side-mask mode, a decoded frame of size (w, h) is split
horizontally: the color view is the (w/2, h) sub-region at offset (0, 0)
and the alpha view is the (w/2, h) sub-region at offset (w/2, 0), and the
composite of exactly these two views becomes the fresh cache entry; when
no frame is available no mask is produced and the call falls back to the
cache. -/
theorem C8_theorem (env : VideoEnv) (ch : String) (mc : Option String)
    (hp : env.playing ch = true) :
    (∀ (s : Surface) (w h : Nat), env.read_video ch = some s → s.get_size = (w, h) →
      get_movie_texture env ch mc true =
        (some ⟨Surface.munged (Surface.sub s (w / 2) 0 (w / 2) h)
            (Surface.sub s 0 0 (w / 2) h)⟩, true,
          keySet env.texture ch
            ⟨Surface.munged (Surface.sub s (w / 2) 0 (w / 2) h)
              (Surface.sub s 0 0 (w / 2) h)⟩)) ∧
    (env.read_video ch = none →
      get_movie_texture env ch mc true = (keyGet env.texture ch, false, env.texture)) := by
  constructor
  · intro s w h hr hs
    rw [get_movie_texture, if_pos hp]
    simp [hr, hs]
  · intro hr
    rw [get_movie_texture, if_pos hp]
    simp [hr]

/-- C8 witness: a 200 by 100 frame gives a 100 by 100 color view at
offset (0, 0) and a 100 by 100 alpha view at offset (100, 0). -/
theorem C8_witness :
    envC8.playing "c" = true ∧
    get_movie_texture envC8 "c" none true =
      (some ⟨Surface.munged (Surface.sub (Surface.base 2 200 100) 100 0 100 100)
          (Surface.sub (Surface.base 2 200 100) 0 0 100 100)⟩, true,
        keySet envC8.texture "c"
          ⟨Surface.munged (Surface.sub (Surface.base 2 200 100) 100 0 100 100)
            (Surface.sub (Surface.base 2 200 100) 0 0 100 100)⟩) :=
  ⟨rfl, (C8_theorem envC8 "c" none rfl).1 (Surface.base 2 200 100) 200 100 rfl rfl⟩

/-! ## Claim C9 -/

/-- C9: the fullscreen flag computed at interact time is true exactly when
the backend reports the dedicated movie channel playing and no displayable
registered this interaction claims channel name movie as its own. -/
theorem C9_theorem (env : VideoEnv) :
    (interact env).1 = true ↔
      (env.playing "movie" = true ∧
        ∀ kv ∈ env.displayable_channels, kv.1.1 ≠ "movie") := by
  rw [interact]
  by_cases hp : env.playing "movie" = true
  · rw [if_pos hp]
    cases ha : env.displayable_channels.any (fun kv => kv.1.1 == "movie") with
    | true =>
      rw [if_pos rfl]
      constructor
      · intro hft
        exact absurd hft (by simp)
      · intro hall
        rcases List.any_eq_true.mp ha with ⟨kv, hkv, hbeq⟩
        exact absurd (eq_of_beq hbeq) (hall.2 kv hkv)
    | false =>
      rw [if_neg (by simp)]
      constructor
      · intro _
        refine ⟨hp, ?_⟩
        intro kv hkv he
        have hmem : env.displayable_channels.any (fun kv => kv.1.1 == "movie") = true :=
          List.any_eq_true.mpr ⟨kv, hkv, by simp [he]⟩
        rw [ha] at hmem
        exact Bool.false_ne_true hmem
      · intro _
        rfl
  · rw [if_neg hp]
    constructor
    · intro hft
      exact absurd hft (by simp)
    · rintro ⟨h1, -⟩
      exact absurd h1 hp

/-- C9 witness: the movie channel playing with a single displayable on an
unrelated channel: the fullscreen flag is true. -/
theorem C9_witness : (interact envC9).1 = true :=
  (C9_theorem envC9).mpr ⟨by decide, by decide⟩

/-! ## Claim C10 lemmas: the group cache rebuild grows keys -/

theorem keyMem_keySet_self {β : Type} (l : List (String × β)) (c : String) (v : β) :
    keyMem (keySet l c v) c = true := by
  rw [keySet]
  by_cases h : keyMem l c = true
  · rw [if_pos h, keyMem_iff]
    rw [keyMem_iff] at h
    rcases List.mem_map.mp h with ⟨kv, hkv, hfst⟩
    apply List.mem_map.mpr
    refine ⟨(c, v), List.mem_map.mpr ⟨kv, hkv, ?_⟩, rfl⟩
    simp [hfst]
  · rw [if_neg h, keyMem_iff, List.map_append]
    exact List.mem_append_right _ (by simp)

theorem keyMem_keySet_of_mem {β : Type} (l : List (String × β)) (c2 c : String) (v : β)
    (h : keyMem l c2 = true) : keyMem (keySet l c v) c2 = true := by
  rw [keySet]
  by_cases hm : keyMem l c = true
  · rw [if_pos hm, keyMem_iff]
    rw [keyMem_iff] at h
    rcases List.mem_map.mp h with ⟨kv, hkv, hfst⟩
    by_cases hb : kv.1 = c
    · apply List.mem_map.mpr
      refine ⟨(c, v), List.mem_map.mpr ⟨kv, hkv, by simp [hb]⟩, ?_⟩
      rw [← hb]
      exact hfst
    · apply List.mem_map.mpr
      exact ⟨kv, List.mem_map.mpr ⟨kv, hkv, by simp [hb]⟩, hfst⟩
  · rw [if_neg hm, keyMem_iff, List.map_append]
    rw [keyMem_iff] at h
    exact List.mem_append_left _ h

theorem keyMem_group_step_self (old acc : List (String × Option Texture))
    (m : MovieSlot) (g : String) (h : m.group = some g) :
    keyMem (group_step old acc m) g = true := by
  rw [group_step, h]
  exact keyMem_keySet_self acc g _

theorem keyMem_group_step_of_mem (old acc : List (String × Option Texture))
    (m : MovieSlot) (g : String) (h : keyMem acc g = true) :
    keyMem (group_step old acc m) g = true := by
  rw [group_step]
  cases hg : m.group with
  | none => exact h
  | some g2 => exact keyMem_keySet_of_mem acc g g2 _ h

theorem keyMem_foldl_group_of_mem (old : List (String × Option Texture)) :
    ∀ (ms : List MovieSlot) (acc : List (String × Option Texture)) (g : String),
      keyMem acc g = true → keyMem (ms.foldl (group_step old) acc) g = true
  | [], _, _, h => h
  | m :: rest, acc, g, h => by
    rw [List.foldl_cons]
    exact keyMem_foldl_group_of_mem old rest _ g (keyMem_group_step_of_mem old acc m g h)

theorem keyMem_foldl_group_self (old : List (String × Option Texture)) :
    ∀ (ms : List MovieSlot) (acc : List (String × Option Texture)) (g : String)
      (m0 : MovieSlot), m0 ∈ ms → m0.group = some g →
      keyMem (ms.foldl (group_step old) acc) g = true
  | [], _, _, _, hm, _ => absurd hm (List.not_mem_nil _)
  | m :: rest, acc, g, m0, hm, hg => by
    rw [List.foldl_cons]
    rcases List.mem_cons.mp hm with he | ht
    · exact keyMem_foldl_group_of_mem old rest _ g
        (keyMem_group_step_self old acc m g (by rw [← he]; exact hg))
    · exact keyMem_foldl_group_self old rest _ g m0 ht hg

theorem keyMem_rebuild_of_mem (old : List (String × Option Texture)) :
    ∀ (dcs : List ((String × Option String) × List MovieSlot))
      (acc : List (String × Option Texture)) (g : String),
      keyMem acc g = true →
      keyMem (dcs.foldl (fun acc kv => kv.2.foldl (group_step old) acc) acc) g = true
  | [], _, _, h => h
  | kv :: rest, acc, g, h => by
    rw [List.foldl_cons]
    exact keyMem_rebuild_of_mem old rest _ g (keyMem_foldl_group_of_mem old kv.2 acc g h)

theorem keyMem_rebuild_self (old : List (String × Option Texture)) :
    ∀ (dcs : List ((String × Option String) × List MovieSlot))
      (acc : List (String × Option Texture)) (g : String) (m0 : MovieSlot)
      (key : String × Option String) (ms : List MovieSlot),
      (key, ms) ∈ dcs → m0 ∈ ms → m0.group = some g →
      keyMem (dcs.foldl (fun acc kv => kv.2.foldl (group_step old) acc) acc) g = true
  | [], _, _, _, _, _, hreg, _, _ => absurd hreg (List.not_mem_nil _)
  | kv :: rest, acc, g, m0, key, ms, hreg, hm0, hg => by
    rw [List.foldl_cons]
    rcases List.mem_cons.mp hreg with he | ht
    · have hms : kv.2 = ms := by rw [← he]
      exact keyMem_rebuild_of_mem old rest _ g
        (by rw [hms]; exact keyMem_foldl_group_self old ms acc g m0 hm0 hg)
    · exact keyMem_rebuild_self old rest _ g m0 key ms ht hm0 hg

/-! ## Claim C10 -/

/-- C10: after the group cache rebuild of frequent(), every group named by
a registered slot has a key in the cache (even when its carried-forward
value is none), and consequently a slot of that group rendering against
the rebuilt cache never takes the fallback-image branch, even with a
fallback image configured: the mere key presence forces not_playing to
false. -/
theorem C10_theorem (dcs : List ((String × Option String) × List MovieSlot))
    (old : List (String × Option Texture)) (m0 : MovieSlot) (g : String)
    (key : String × Option String) (ms : List MovieSlot)
    (hreg : (key, ms) ∈ dcs) (hm0 : m0 ∈ ms) (hg : m0.group = some g) :
    keyMem (frequent_group_rebuild dcs old) g = true ∧
    ∀ (env : VideoEnv) (m : MovieSlot) (w h w2 h2 : Nat),
      env.group_texture = frequent_group_rebuild dcs old → m.group = some g →
      m.image = some (w2, h2) →
      (Movie.render env m w h).rv.isFallbackImage = false := by
  have hkey : keyMem (frequent_group_rebuild dcs old) g = true := by
    rw [frequent_group_rebuild]
    exact keyMem_rebuild_self old dcs [] g m0 key ms hreg hm0 hg
  refine ⟨hkey, ?_⟩
  intro env m w h w2 h2 hgt hmg _himg
  have hnp : render_not_playing env m = false := by
    rw [render_not_playing, hmg]
    rw [hgt]
    simp [hkey]
  have hc : ¬(m.image.isSome = true ∧ render_not_playing env m = true) := by
    intro hcc
    rw [hnp] at hcc
    exact absurd hcc.2 (by simp)
  rw [render_not_fallback_case env m w h hc]
  exact render_rv_not_image env m

/-- C10 witness: the grouped slot with a fallback image registered in
`dcs10`: its group key is present after the rebuild from an empty old
cache, and rendering it against that cache does not produce the fallback
image. -/
theorem C10_witness :
    keyMem (frequent_group_rebuild dcs10 []) "g" = true ∧
    (Movie.render envC10 slotG 50 50).rv.isFallbackImage = false :=
  ⟨(C10_theorem dcs10 [] slotG "g" ("c", none) [slotG] (by decide) (by decide) rfl).1,
    (C10_theorem dcs10 [] slotG "g" ("c", none) [slotG] (by decide) (by decide) rfl).2
      envC10 slotG 50 50 5 5 rfl rfl rfl⟩

end Video
